import Mathlib

/-!
# Verification of the vite-plugin-fluent argument-shape inferencer

This development embeds the core of `vite-plugin-fluent` in Lean and proves
properties of it:

* the Fluent AST fragment the inferencer walks (messages, attributes,
  patterns, placeables, variable references, select expressions with
  variants), mirroring the `@fluent/syntax` node shapes used by the code;
* the `ExpressionVisitor` from `src/declaration.ts` (the final design,
  with select-aware narrowing and the `isDiscoveredSelect` metadata map),
  embedded as a state-passing traversal;
* the resource-level aggregation `createResourceMessageArgsType` /
  `createFormatMessageOverload` producing the `ResourceMessageArgs`
  type-literal entries;
* the `InferFormatterType` mapped type from `runtime/prelude.d.ts`, which
  turns each entry into a `formatMessage` overload (dropping the `args`
  parameter for `never`-typed entries);
* the generated runtime `formatMessage` from `runtime/runtime.js`
  (dot-splitting of message ids, and the null/array reinterpretation of
  the third parameter).

JavaScript `Map`s are embedded as insertion-ordered association lists
(`alGet` / `alSet` reproduce `Map.get` / `Map.set`, including the fact that
`set` on an existing key keeps its position).  JavaScript strings in the
runtime module are embedded as `List Char` so that `indexOf`/`slice`
arithmetic can be reasoned about directly.
-/

/-! ## The Fluent AST fragment (from `@fluent/syntax`, as used by the code) -/

/-- A variant key: either an `Identifier` (string key) or a `NumberLiteral`
(whose `value` field is the raw numeric literal text). -/
inductive VariantKey where
  | ident (name : String)
  | num (value : String)
deriving DecidableEq, Repr

mutual
/-- Expressions reachable from a placeable.  `otherExpr` stands for the
remaining expression kinds (function references, literals, …) for which the
visitor defines no handler and which contribute no entries. -/
inductive Expression where
  | varRef (name : String)
  | select (selector : Expression) (variants : List Variant)
  | otherExpr
deriving Repr

/-- One arm of a select expression: a key, the default marker, and the arm's
own sub-pattern. -/
inductive Variant where
  | mk (key : VariantKey) (isDefault : Bool) (value : List PatternElement)
deriving Repr

/-- A pattern element: literal text, or a placeable wrapping one expression. -/
inductive PatternElement where
  | text (s : String)
  | placeable (e : Expression)
deriving Repr
end

/-- A pattern is an ordered sequence of elements. -/
abbrev Pattern := List PatternElement

/-- Projection of a variant's key. -/
def Variant.key : Variant → VariantKey
  | .mk k _ _ => k

/-! ## The inferred type nodes produced by the visitor -/

/-- A literal type node member: `createStringLiteral` or
`createNumericLiteral` applied to a variant key. -/
inductive LiteralTy where
  | strLit (s : String)
  | numLit (s : String)
deriving DecidableEq, Repr

/-- The type nodes the visitor stores per variable: the type reference
`FluentVariable` (the most general, "opaque" argument type) or a union of
literal types as built by `createUnionTypeNode`. -/
inductive TypeNode where
  | fluentVariable
  | literalUnion (members : List LiteralTy)
deriving DecidableEq, Repr

/-! ## Insertion-ordered association lists (JavaScript `Map` semantics) -/

/-- `Map.get`: the value bound to `key`, if any. -/
def alGet {κ α : Type} [DecidableEq κ] : List (κ × α) → κ → Option α
  | [], _ => none
  | (k, v) :: rest, key => if k = key then some v else alGet rest key

/-- `Map.set`: update the value bound to `key` in place (keeping insertion
order), or append a fresh binding at the end. -/
def alSet {κ α : Type} [DecidableEq κ] : List (κ × α) → κ → α → List (κ × α)
  | [], key, v => [(key, v)]
  | (k, w) :: rest, key, v =>
      if k = key then (k, v) :: rest else (k, w) :: alSet rest key v

/-! ## The `ExpressionVisitor` (src/declaration.ts, final design) -/

/-- The visitor's mutable state: the `variables` map (variable name ↦ type
node) and the private `metadata` map (variable name ↦ `isDiscoveredSelect`). -/
structure VisitorState where
  vars : List (String × TypeNode)
  metadata : List (String × Bool)
deriving DecidableEq, Repr

/-- How a variant key is rendered into a union member:
`variant.key instanceof Identifier ? createStringLiteral(variant.key.name)
: createNumericLiteral(variant.key.value)`. -/
def renderVariantKey : VariantKey → LiteralTy
  | .ident name => .strLit name
  | .num value => .numLit value

/-- The union type built for a select: one literal member per variant, in
declaration order (`node.variants.map(...)`). -/
def selectCandidate (variants : List Variant) : TypeNode :=
  .literalUnion (variants.map fun v => renderVariantKey v.key)

/-- `visitVariableReference`: insert `FluentVariable` and
`isDiscoveredSelect: false` metadata, but only when the name is not already
present in the variables map. -/
def visitVariableReference (st : VisitorState) (name : String) : VisitorState :=
  if (alGet st.vars name).isSome then st
  else
    { vars := alSet st.vars name .fluentVariable,
      metadata := alSet st.metadata name false }

/-- The non-recursive head of `visitSelectExpression` (lines 179–202): when
the selector is a variable reference, apply the merge rule for its union
candidate and mark the name as discovered via select.  The recursion into
the selector and the variants (lines 204–208) lives in `visitExpression`. -/
def selectMerge (st : VisitorState) (sel : Expression) (variants : List Variant) :
    VisitorState :=
  match sel with
  | .varRef name =>
      let union := selectCandidate variants
      let st1 :=
        match alGet st.vars name, alGet st.metadata name with
        | none, none => { st with vars := alSet st.vars name union }
        | _, _ =>
            if alGet st.metadata name = some false then
              { st with vars := alSet st.vars name union }
            else st
      { st1 with metadata := alSet st1.metadata name true }
  | _ => st

mutual
/-- Visiting one expression: `visitVariableReference` for plain references,
`visitSelectExpression` (merge, then recurse into the selector and into
every variant's pattern, in declaration order) for selects, and a no-op for
all other expression kinds. -/
def visitExpression (st : VisitorState) : Expression → VisitorState
  | .varRef name => visitVariableReference st name
  | .select sel variants =>
      let st1 := selectMerge st sel variants
      let st2 := visitExpression st1 sel
      visitVariants st2 variants
  | .otherExpr => st

/-- Visit every variant of a select, in declaration order. -/
def visitVariants (st : VisitorState) : List Variant → VisitorState
  | [] => st
  | v :: rest => visitVariants (visitVariant st v) rest

/-- Visit one variant: visit its sub-pattern. -/
def visitVariant (st : VisitorState) : Variant → VisitorState
  | .mk _ _ value => visitElements st value

/-- Visit a pattern: literal text is ignored, each placeable's expression is
visited left to right. -/
def visitElements (st : VisitorState) : List PatternElement → VisitorState
  | [] => st
  | .text _ :: rest => visitElements st rest
  | .placeable e :: rest => visitElements (visitExpression st e) rest
end

/-- Run the visitor over a whole pattern starting from empty maps (the
`variables` map handed to `new ExpressionVisitor`), and return the final
variables map. -/
def inferPattern (p : Pattern) : List (String × TypeNode) :=
  (visitElements ⟨[], []⟩ p).vars

/-! ## Resource-level aggregation (`createResourceMessageArgsType`) -/

/-- An attribute: its identifier name and its pattern.  The code guards
`object.value === null` uniformly for messages and attributes, so the value
is embedded as optional. -/
structure Attribute where
  name : String
  value : Option Pattern

/-- A message entry: identifier name, optional value pattern, and its
attributes in declaration order. -/
structure Message where
  name : String
  value : Option Pattern
  attributes : List Attribute

/-- A top-level resource entry; only `Message` entries are kept by
`resource.body.filter((entry) => entry instanceof Message)`. -/
inductive Entry where
  | message (m : Message)
  | junkEntry
deriving Inhabited

/-- A parsed resource body. -/
abbrev Resource := List Entry

/-- The filter step of `createResourceMessageArgsType`. -/
def entryMessage : Entry → Option Message
  | .message m => some m
  | .junkEntry => none

/-- The property type emitted for one addressable entry: `never` when the
pattern references no variables, otherwise a type literal with one readonly
field per variable in insertion order. -/
inductive ArgType where
  | never
  | object (fields : List (String × TypeNode))
deriving DecidableEq, Repr

/-- The type given to one entry with a present pattern: run the visitor; if
the variables map is empty return the `never` marker
(`createResourceMessageArgOverload(name, null)`), otherwise the type
literal of the collected variables. -/
def patternArgType (p : Pattern) : ArgType :=
  let collected := inferPattern p
  if collected = [] then .never else .object collected

/-- `createFormatMessageOverload`: `null` for entries without a pattern,
otherwise a property `name ↦ patternArgType`. -/
def createFormatMessageOverload (name : String) (value : Option Pattern) :
    Option (String × ArgType) :=
  match value with
  | none => none
  | some pattern => some (name, patternArgType pattern)

/-- `createResourceMessageArgsType`: iterate messages in declaration order;
push the message's own overload when non-null, then the overloads of its
attributes under the key `"<message>.<attribute>"`. -/
def createResourceMessageArgsType (resource : Resource) :
    List (String × ArgType) :=
  (resource.filterMap entryMessage).flatMap fun message =>
    (createFormatMessageOverload message.name message.value).toList ++
      message.attributes.filterMap fun attr =>
        createFormatMessageOverload (message.name ++ "." ++ attr.name)
          attr.value

/-! ## `InferFormatterType` (runtime/prelude.d.ts) -/

/-- One member of the overload union produced by `InferFormatterType`:
`T[K] extends never ? (bundle, id, error?) => string
: (bundle, id, args: T[K], error?) => string`. -/
inductive FormatterSig where
  | noArgs (id : String)
  | withArgs (id : String) (args : List (String × TypeNode))
deriving DecidableEq, Repr

/-- The mapped type `InferFormatterType<T>`: one overload per key of the
`ResourceMessageArgs` entries; `never`-typed keys lose the `args`
parameter. -/
def inferFormatterType (index : List (String × ArgType)) : List FormatterSig :=
  index.map fun e =>
    match e with
    | (id, .never) => .noArgs id
    | (id, .object fields) => .withArgs id fields

/-- Whether an overload has an `args` parameter at all. -/
def sigTakesArgs : FormatterSig → Bool
  | .noArgs _ => false
  | .withArgs _ _ => true

/-! ## The generated runtime `formatMessage` (runtime/runtime.js) -/

/-- The JavaScript values relevant to the runtime's argument handling:
`null`, `undefined`, arrays (the error lists), and plain objects (the
argument bags).  Error values and argument values are abstracted to
strings. -/
inductive JsValue where
  | null
  | undef
  | array (items : List String)
  | object (fields : List (String × String))
deriving DecidableEq, Repr

/-- `Array.isArray`. -/
def jsIsArray : JsValue → Bool
  | .array _ => true
  | _ => false

/-- A compiled message held by the bundle: its value pattern (possibly
`null`) and its attribute patterns, keyed by attribute name.  Patterns are
abstract handles (strings) since formatting is external. -/
structure RuntimeMessage where
  value : Option String
  attributes : List (List Char × String)
deriving DecidableEq, Repr

/-- The bundle: its compiled messages, keyed by message id. -/
structure RuntimeBundle where
  messages : List (List Char × RuntimeMessage)
deriving DecidableEq, Repr

/-- The observable outcome of `formatMessage`: the arguments it hands to
`bundle.formatPattern(pattern, args, errors)`. -/
structure FormatPatternCall where
  pattern : Option String
  args : JsValue
  errors : JsValue
deriving DecidableEq, Repr

/-- `String.prototype.indexOf` for a single character: index of the first
occurrence, `-1` when absent. -/
def jsIndexOf (s : List Char) (c : Char) : Int :=
  match s with
  | [] => -1
  | x :: rest =>
      if x = c then 0
      else
        let i := jsIndexOf rest c
        if i = -1 then -1 else i + 1

/-- The generated runtime `formatMessage(bundle, id, args, error)`.  Returns
the `formatPattern` call it performs; `none` models the `TypeError` thrown
when `bundle.getMessage(messageId)` is `undefined` and its `.value` is
accessed. -/
def formatMessage (bundle : RuntimeBundle) (id : List Char)
    (args errors : JsValue) : Option FormatPatternCall :=
  let attrIndex := jsIndexOf id '.'
  let isAttribute := attrIndex > -1
  let messageId := if isAttribute then id.take attrIndex.toNat else id
  match alGet bundle.messages messageId with
  | none => none
  | some message =>
      let pattern :=
        if isAttribute then alGet message.attributes (id.drop (attrIndex.toNat + 1))
        else message.value
      if args = JsValue.null ∨ jsIsArray args = true then
        some ⟨pattern, JsValue.object [], args⟩
      else
        some ⟨pattern, args, errors⟩

/-! ## Helper lemmas -/

/-- A pattern element that is literal text (contributes nothing to the
visitor's state). -/
def elementTextOnly : PatternElement → Bool
  | .text _ => true
  | .placeable _ => false

/-- A variant whose sub-pattern is literal text only. -/
def variantTextOnly : Variant → Bool
  | .mk _ _ value => value.all elementTextOnly

/-- Visiting a text-only element list leaves the state unchanged. -/
theorem visitElements_textOnly (es : List PatternElement) (st : VisitorState)
    (h : es.all elementTextOnly = true) : visitElements st es = st := by
  induction es generalizing st with
  | nil => simp [visitElements]
  | cons e rest ih =>
    cases e with
    | text s =>
        simp only [List.all_cons, Bool.and_eq_true] at h
        simp [visitElements, ih st h.2]
    | placeable e => simp [List.all_cons, elementTextOnly] at h

/-- Visiting a list of text-only variants leaves the state unchanged. -/
theorem visitVariants_textOnly (vs : List Variant) (st : VisitorState)
    (h : vs.all variantTextOnly = true) : visitVariants st vs = st := by
  induction vs generalizing st with
  | nil => simp [visitVariants]
  | cons v rest ih =>
    obtain ⟨k, d, value⟩ := v
    simp only [List.all_cons, Bool.and_eq_true, variantTextOnly] at h
    simp [visitVariants, visitVariant, visitElements_textOnly value st h.1, ih _ h.2]

/-! ## Concrete fixtures used by witnesses and counterexamples -/

/-- A state in which `n` has already been narrowed by a select. -/
def lockedState : VisitorState :=
  ⟨[("n", .literalUnion [.strLit "one", .strLit "other"])], [("n", true)]⟩

/-- A state in which `n` has only been seen as a plain reference. -/
def plainState : VisitorState :=
  ⟨[("n", .fluentVariable)], [("n", false)]⟩

/-- The empty visitor state. -/
def emptyState : VisitorState := ⟨[], []⟩

/-- `[one] A *[other] B` with string keys, the default last. -/
def unionOne : List Variant :=
  [.mk (.ident "one") false [.text "A"], .mk (.ident "other") true [.text "B"]]

/-- A second, conflicting variant set. -/
def unionTwo : List Variant := [.mk (.ident "many") true [.text "C"]]

/-! ## Claim theorems -/

/-- Claim C7: visiting a plain `VariableReference(name)` inserts an entry
(with the opaque `FluentVariable` type and `isDiscoveredSelect: false`) only
when `name` is absent from the variables map; when `name` is present the
visit changes nothing at all — in particular a name previously narrowed to a
literal union keeps that union, so plain references never un-narrow. -/
theorem plain_reference_inserts_only_if_absent (st : VisitorState) (n : String) :
    ((alGet st.vars n).isSome = true → visitExpression st (.varRef n) = st) ∧
    (alGet st.vars n = none →
      visitExpression st (.varRef n) =
        ⟨alSet st.vars n .fluentVariable, alSet st.metadata n false⟩) ∧
    (∀ ks, alGet st.vars n = some (.literalUnion ks) →
      alGet (visitExpression st (.varRef n)).vars n = some (.literalUnion ks)) := by
  refine ⟨?_, ?_, ?_⟩
  · intro h
    simp [visitExpression, visitVariableReference, h]
  · intro h
    simp [visitExpression, visitVariableReference, h]
  · intro ks h
    simp [visitExpression, visitVariableReference, h]

/-- Witness for C7 at concrete states. -/
theorem plain_reference_inserts_only_if_absent_witness :
    (alGet lockedState.vars "n").isSome = true ∧
    visitExpression lockedState (.varRef "n") = lockedState ∧
    visitExpression emptyState (.varRef "x") =
      ⟨alSet emptyState.vars "x" .fluentVariable, alSet emptyState.metadata "x" false⟩ ∧
    alGet (visitExpression lockedState (.varRef "n")).vars "n" =
      some (.literalUnion [.strLit "one", .strLit "other"]) :=
  ⟨by decide,
   (plain_reference_inserts_only_if_absent lockedState "n").1 (by decide),
   (plain_reference_inserts_only_if_absent emptyState "x").2.1 (by decide),
   (plain_reference_inserts_only_if_absent lockedState "n").2.2
     [.strLit "one", .strLit "other"] (by decide)⟩

/-- Claim C8: a select expression with zero variants whose selector is a
variable reference records the legal degenerate empty literal union for the
selector (the merge rule still applies, overriding a prior plain-reference
entry); the traversal is a total function, so no error path exists. -/
theorem empty_select_records_empty_union (n : String) :
    inferPattern [.placeable (.select (.varRef n) [])] =
      [(n, .literalUnion [])] ∧
    inferPattern [.placeable (.varRef n), .placeable (.select (.varRef n) [])] =
      [(n, .literalUnion [])] := by
  constructor
  · simp [inferPattern, visitElements, visitExpression, visitVariants, selectMerge,
      selectCandidate, visitVariableReference, alGet, alSet]
  · simp [inferPattern, visitElements, visitExpression, visitVariants, selectMerge,
      selectCandidate, visitVariableReference, alGet, alSet]

/-- Claim C1: the merge rule is asymmetric.  A select on `$n` never
overrides a variable already discovered via select (the first-discovered
union wins), while any select overrides a variable previously seen only as
a plain reference; consequently a pattern with two selects on `$n` with
different variant sets keeps the union of the first-encountered select. -/
theorem first_select_wins_asymmetry (st : VisitorState) (n : String)
    (vs1 vs2 : List Variant) :
    (alGet st.metadata n = some true →
      (selectMerge st (.varRef n) vs1).vars = st.vars) ∧
    (alGet st.metadata n = some false →
      (selectMerge st (.varRef n) vs1).vars = alSet st.vars n (selectCandidate vs1)) ∧
    (vs1.all variantTextOnly = true → vs2.all variantTextOnly = true →
      inferPattern [.placeable (.select (.varRef n) vs1),
          .placeable (.select (.varRef n) vs2)] = [(n, selectCandidate vs1)]) := by
  refine ⟨?_, ?_, ?_⟩
  · intro h
    cases hv : alGet st.vars n <;> simp [selectMerge, h, hv]
  · intro h
    cases hv : alGet st.vars n <;> simp [selectMerge, h, hv]
  · intro h1 h2
    simp [inferPattern, visitElements, visitExpression, selectMerge,
      visitVariableReference, alGet, alSet, h1, h2, visitVariants_textOnly]

/-- Witness for C1 at concrete states and variant sets. -/
theorem first_select_wins_asymmetry_witness :
    (selectMerge lockedState (.varRef "n") unionOne).vars = lockedState.vars ∧
    (selectMerge plainState (.varRef "n") unionOne).vars =
      alSet plainState.vars "n" (selectCandidate unionOne) ∧
    inferPattern [.placeable (.select (.varRef "n") unionOne),
        .placeable (.select (.varRef "n") unionTwo)] =
      [("n", selectCandidate unionOne)] :=
  ⟨(first_select_wins_asymmetry lockedState "n" unionOne unionTwo).1 (by decide),
   (first_select_wins_asymmetry plainState "n" unionOne unionTwo).2.1 (by decide),
   (first_select_wins_asymmetry lockedState "n" unionOne unionTwo).2.2
     (by decide) (by decide)⟩

/-- Claim C2: when `$n` is first referenced plainly (recorded with the
opaque `FluentVariable` type) and later drives a select, the final type is
the literal union of that select's variant keys, not the opaque type. -/
theorem plain_then_select_narrows (n : String) (vs : List Variant)
    (h : vs.all variantTextOnly = true) :
    inferPattern [.placeable (.varRef n), .placeable (.select (.varRef n) vs)] =
      [(n, .literalUnion (vs.map fun v => renderVariantKey v.key))] ∧
    TypeNode.literalUnion (vs.map fun v => renderVariantKey v.key) ≠
      TypeNode.fluentVariable := by
  constructor
  · simp [inferPattern, visitElements, visitExpression, selectMerge, selectCandidate,
      visitVariableReference, alGet, alSet, h, visitVariants_textOnly]
  · simp

/-- Witness for C2 on concrete variants. -/
theorem plain_then_select_narrows_witness :
    unionOne.all variantTextOnly = true ∧
    inferPattern [.placeable (.varRef "n"), .placeable (.select (.varRef "n") unionOne)] =
      [("n", .literalUnion (unionOne.map fun v => renderVariantKey v.key))] :=
  ⟨by decide, (plain_then_select_narrows "n" unionOne (by decide)).1⟩

/-- Claim C5: a select whose selector is `$n` records for `n` the literal
union of all variant keys, in variant declaration order (the default arm in
its declared position — `isDefault` is ignored by the key mapping), string
keys rendered as their identifier text and numeric keys as their numeric
literal text. -/
theorem select_candidate_union_in_declaration_order (n : String)
    (vs : List Variant) (h : vs.all variantTextOnly = true) :
    inferPattern [.placeable (.select (.varRef n) vs)] =
      [(n, .literalUnion (vs.map fun v => renderVariantKey v.key))] := by
  simp [inferPattern, visitElements, visitExpression, selectMerge, selectCandidate,
    visitVariableReference, alGet, alSet, h, visitVariants_textOnly]

/-- A variant set mixing string and numeric keys, with the default arm in
the middle. -/
def mixedVariants : List Variant :=
  [.mk (.ident "one") false [.text "A"],
   .mk (.num "3") true [.text "B"],
   .mk (.ident "other") false [.text "C"]]

/-- Witness for C5: declaration order is preserved across a defaulted
middle arm, and the numeric key is rendered as a numeric literal. -/
theorem select_candidate_union_in_declaration_order_witness :
    mixedVariants.all variantTextOnly = true ∧
    inferPattern [.placeable (.select (.varRef "count") mixedVariants)] =
      [("count", .literalUnion [.strLit "one", .numLit "3", .strLit "other"])] :=
  ⟨by decide, by
    have h := select_candidate_union_in_declaration_order "count" mixedVariants
      (by decide)
    simpa [mixedVariants, renderVariantKey, Variant.key] using h⟩

/-- Claim C6: the aggregator walks messages in declaration order; a message
with a present value contributes the key `message.name`, a message without
a value contributes no key of its own, and every attribute with a pattern
contributes the independent key `"<message>.<attribute>"` with its own
independently inferred shape. -/
theorem aggregator_keys_and_attribute_addressing (p pc po : Pattern) :
    createResourceMessageArgsType
        [.message ⟨"choices", some p, [⟨"create", some pc⟩, ⟨"open", some po⟩]⟩] =
      [("choices", patternArgType p), ("choices.create", patternArgType pc),
        ("choices.open", patternArgType po)] ∧
    createResourceMessageArgsType
        [.message ⟨"choices", none, [⟨"create", some pc⟩, ⟨"open", some po⟩]⟩] =
      [("choices.create", patternArgType pc), ("choices.open", patternArgType po)] ∧
    createResourceMessageArgsType
        [.message ⟨"zeta", some p, []⟩, .message ⟨"alpha", some pc, []⟩] =
      [("zeta", patternArgType p), ("alpha", patternArgType pc)] := by
  refine ⟨?_, ?_, ?_⟩ <;>
    simp [createResourceMessageArgsType, createFormatMessageOverload, entryMessage]

/-- The end-to-end C3 input: `demo = Look ma, no arguments!`. -/
def demoPattern : Pattern := [.text "Look ma, no arguments!"]

/-- The resource holding only the `demo` message. -/
def demoResource : Resource := [.message ⟨"demo", some demoPattern, []⟩]

/-- Counterexample to C3 as stated: the produced index is NOT empty — it
contains the key `"demo"`, bound to the `never` marker (exactly as the
repository's own `zero-variables` snapshot shows `readonly "greet": never`). -/
theorem demo_index_not_empty :
    createResourceMessageArgsType demoResource = [("demo", ArgType.never)] ∧
    createResourceMessageArgsType demoResource ≠ [] := by
  have h : createResourceMessageArgsType demoResource = [("demo", ArgType.never)] := by
    simp [demoResource, demoPattern, createResourceMessageArgsType, entryMessage,
      createFormatMessageOverload, patternArgType, inferPattern, visitElements]
  exact ⟨h, by simp [h]⟩

/-- Claim C3 as amended: the index for the `demo` resource binds the key
`"demo"` to the `never` marker, and the derived `formatMessage` overload for
`"demo"` therefore accepts no arguments parameter. -/
theorem demo_entry_is_never_no_args_overload :
    createResourceMessageArgsType demoResource = [("demo", ArgType.never)] ∧
    inferFormatterType (createResourceMessageArgsType demoResource) =
      [FormatterSig.noArgs "demo"] := by
  have h : createResourceMessageArgsType demoResource = [("demo", ArgType.never)] := by
    simp [demoResource, demoPattern, createResourceMessageArgsType, entryMessage,
      createFormatMessageOverload, patternArgType, inferPattern, visitElements]
  exact ⟨h, by simp [h, inferFormatterType]⟩

/-- Counterexample to C4 as stated: for a message whose pattern exists but
references no variables, the emitted `formatMessage` overload does NOT take
an arguments value — `InferFormatterType` drops the `args` parameter for
`never`-typed keys, so the caller cannot pass `{}` at all. -/
theorem no_variable_overload_takes_no_args :
    inferFormatterType (createResourceMessageArgsType demoResource) =
      [FormatterSig.noArgs "demo"] ∧
    (inferFormatterType (createResourceMessageArgsType demoResource)).map
      sigTakesArgs = [false] := by
  have h : createResourceMessageArgsType demoResource = [("demo", ArgType.never)] := by
    simp [demoResource, demoPattern, createResourceMessageArgsType, entryMessage,
      createFormatMessageOverload, patternArgType, inferPattern, visitElements]
  refine ⟨by simp [h, inferFormatterType], by simp [h, inferFormatterType, sigTakesArgs]⟩

/-- Claim C4 as amended: the two cases are distinguished, but differently
from the claim's wording — a message with a variable-free pattern gets an
overload whose `args` parameter is omitted (its key is typed `never`), while
a message with no pattern at all gets no key and hence no overload for its
id; call sites can still tell the cases apart (callable without arguments
vs. not callable at all). -/
theorem no_variables_versus_no_pattern (n : String) (p : Pattern)
    (h : inferPattern p = []) :
    inferFormatterType (createResourceMessageArgsType [.message ⟨n, some p, []⟩]) =
      [FormatterSig.noArgs n] ∧
    inferFormatterType (createResourceMessageArgsType [.message ⟨n, none, []⟩]) =
      [] := by
  constructor
  · simp [createResourceMessageArgsType, entryMessage, createFormatMessageOverload,
      patternArgType, h, inferFormatterType]
  · simp [createResourceMessageArgsType, entryMessage, createFormatMessageOverload,
      inferFormatterType]

/-- Witness for the amended C4 at the concrete `demo` message. -/
theorem no_variables_versus_no_pattern_witness :
    inferPattern demoPattern = [] ∧
    inferFormatterType
        (createResourceMessageArgsType [.message ⟨"demo", some demoPattern, []⟩]) =
      [FormatterSig.noArgs "demo"] :=
  ⟨by simp [demoPattern, inferPattern, visitElements],
   (no_variables_versus_no_pattern "demo" demoPattern
      (by simp [demoPattern, inferPattern, visitElements])).1⟩

/-- `indexOf` returns `-1` when the character does not occur. -/
theorem jsIndexOf_eq_neg_one (s : List Char) (c : Char) (h : c ∉ s) :
    jsIndexOf s c = -1 := by
  induction s with
  | nil => rfl
  | cons x rest ih =>
    simp only [List.mem_cons, not_or] at h
    have hx : ¬ x = c := fun he => h.1 he.symm
    simp [jsIndexOf, hx, ih h.2]

/-- `indexOf` finds the FIRST occurrence: when `c` does not occur in `m`,
the index of `c` in `m ++ c :: rest` is `m.length`. -/
theorem jsIndexOf_append_cons (m rest : List Char) (c : Char) (h : c ∉ m) :
    jsIndexOf (m ++ c :: rest) c = m.length := by
  induction m with
  | nil => simp [jsIndexOf]
  | cons x m' ih =>
    simp only [List.mem_cons, not_or] at h
    have hx : ¬ x = c := fun he => h.1 he.symm
    have hne : (m'.length : Int) ≠ -1 := by omega
    simp [jsIndexOf, hx, ih h.2, hne]

/-- Claim C9: when `args` is `null` or an array, the generated runtime
`formatMessage` reinterprets it as the errors list — the pattern is
formatted with the empty arguments object `{}` and `args` is passed in the
errors position. -/
theorem null_or_array_args_become_errors (bundle : RuntimeBundle)
    (id : List Char) (args errors : JsValue) (c : FormatPatternCall)
    (h : args = JsValue.null ∨ jsIsArray args = true)
    (hc : formatMessage bundle id args errors = some c) :
    c.args = JsValue.object [] ∧ c.errors = args := by
  simp only [formatMessage] at hc
  split at hc
  · exact absurd hc (by simp)
  · rw [if_pos h] at hc
    injection hc with h2
    subst h2
    exact ⟨rfl, rfl⟩

/-- A compiled message fixture. -/
def wMessage : RuntimeMessage := ⟨some "HELLO", [(['b', '.', 'c'], "ATTR")]⟩

/-- A compiled message fixture whose attribute name itself contains a dot. -/
def wMessageA : RuntimeMessage := ⟨some "AVAL", [(['b', '.', 'c'], "ABC_ATTR")]⟩

/-- A bundle fixture with messages `hi` and `a`. -/
def wBundle : RuntimeBundle := ⟨[(['h', 'i'], wMessage), (['a'], wMessageA)]⟩

/-- Witness for C9: calling with `args = null` formats with `{}` and passes
`null` along as the errors argument. -/
theorem null_or_array_args_become_errors_witness :
    (JsValue.null = JsValue.null ∨ jsIsArray JsValue.null = true) ∧
    FormatPatternCall.args ⟨some "HELLO", JsValue.object [], JsValue.null⟩ =
      JsValue.object [] ∧
    FormatPatternCall.errors ⟨some "HELLO", JsValue.object [], JsValue.null⟩ =
      JsValue.null :=
  ⟨Or.inl rfl,
   null_or_array_args_become_errors wBundle ['h', 'i'] JsValue.null JsValue.undef
     ⟨some "HELLO", JsValue.object [], JsValue.null⟩ (Or.inl rfl) (by decide)⟩

/-- Claim C10: the generated runtime `formatMessage` splits the id at the
FIRST dot only.  An id with no dot addresses the message's own value
pattern; an id `m ++ "." ++ rest` with no dot in `m` addresses message `m`
and attribute `rest` — the entire remainder, even if `rest` contains
further dots. -/
theorem id_splits_at_first_dot (bundle : RuntimeBundle) (args errors : JsValue) :
    (∀ (id : List Char) (msg : RuntimeMessage), '.' ∉ id →
      alGet bundle.messages id = some msg →
      ∃ c, formatMessage bundle id args errors = some c ∧
        c.pattern = msg.value) ∧
    (∀ (m rest : List Char) (msg : RuntimeMessage), '.' ∉ m →
      alGet bundle.messages m = some msg →
      ∃ c, formatMessage bundle (m ++ '.' :: rest) args errors = some c ∧
        c.pattern = alGet msg.attributes rest) := by
  constructor
  · intro id msg hdot hm
    have hidx : jsIndexOf id '.' = -1 := jsIndexOf_eq_neg_one id '.' hdot
    simp only [formatMessage, hidx]
    norm_num
    simp only [hm]
    by_cases h : args = JsValue.null ∨ jsIsArray args = true
    · exact ⟨_, by rw [if_pos h], rfl⟩
    · exact ⟨_, by rw [if_neg h], rfl⟩
  · intro m rest msg hdot hm
    have hidx : jsIndexOf (m ++ '.' :: rest) '.' = m.length :=
      jsIndexOf_append_cons m rest '.' hdot
    have hpos : ((m.length : Int) > -1) := by omega
    simp only [formatMessage, hidx, if_pos hpos, Int.toNat_natCast]
    rw [List.take_left' rfl]
    simp only [hm]
    have hdrop : (m ++ '.' :: rest).drop (m.length + 1) = rest := by
      have : m ++ '.' :: rest = (m ++ ['.']) ++ rest := by simp
      rw [this, List.drop_left']
      simp
    rw [hdrop]
    by_cases h : args = JsValue.null ∨ jsIsArray args = true
    · exact ⟨_, by rw [if_pos h], rfl⟩
    · exact ⟨_, by rw [if_neg h], rfl⟩

/-- Witness for C10: `a.b.c` addresses message `a`, attribute `b.c`, and a
dotless id addresses the message's value. -/
theorem id_splits_at_first_dot_witness :
    ('.' ∉ ['a']) ∧
    alGet wBundle.messages ['a'] = some wMessageA ∧
    (∃ c, formatMessage wBundle ['h', 'i'] JsValue.undef JsValue.undef = some c ∧
      c.pattern = wMessage.value) ∧
    (∃ c, formatMessage wBundle (['a'] ++ '.' :: ['b', '.', 'c'])
        JsValue.undef JsValue.undef = some c ∧
      c.pattern = alGet wMessageA.attributes ['b', '.', 'c']) :=
  ⟨by decide, by decide,
   (id_splits_at_first_dot wBundle JsValue.undef JsValue.undef).1
     ['h', 'i'] wMessage (by decide) (by decide),
   (id_splits_at_first_dot wBundle JsValue.undef JsValue.undef).2
     ['a'] ['b', '.', 'c'] wMessageA (by decide) (by decide)⟩
